import Mathlib

/-!
Shallow embedding of the Zen-GO rule engine (src/unnamed/part_000, src/types.ts).

The TypeScript source is a pure Go move-legality engine:
  * `copyBoard`, `isOnBoard`, `getNeighbors` — grid utilities,
  * `getGroupAndLiberties` — BFS over same-coloured 4-adjacent stones with a
    visited set, accumulating liberties into a set of coordinate keys,
  * `tryMakeMove` — bounds/occupancy checks, tentative placement, capture of
    adjacent zero-liberty opponent groups, suicide check, single-ply ko check
    against `history[history.length - 2]`, returning a `MoveResult`.

Boards are arrays of rows indexed `board[y][x]` holding `'black' | 'white' | null`;
we model them as `List (List (Option Player))`.  Coordinates are TS numbers used
as integers; we model them as `Int`.  TS `Set<string>` of `"x,y"` keys becomes
`Finset (Int × Int)`.  The unbounded `while` loop of the BFS is modelled with a
fuel parameter; fuel `BOARD_SIZE * BOARD_SIZE + 1` is proved sufficient below.
Out-of-range array access never happens in the source (every access is guarded);
the model's `getCell`/`setCell` return `none` / leave the board unchanged there.
-/

namespace ZenGo

inductive Player : Type
  | black
  | white
deriving DecidableEq

/-- `BOARD_SIZE = 19` from src/types.ts. -/
def BOARD_SIZE : Nat := 19

abbrev Cell := Option Player
abbrev BoardState := List (List Cell)
abbrev Coord := Int × Int

/-- Deep copy of the board (`board.map(row => [...row])`); in the pure model a
row copy is the row itself. -/
def copyBoard (board : BoardState) : BoardState :=
  board.map (fun row => row)

/-- `isOnBoard` from the source: `x >= 0 && x < BOARD_SIZE && y >= 0 && y < BOARD_SIZE`. -/
def isOnBoard (x y : Int) : Bool :=
  0 ≤ x && x < (BOARD_SIZE : Int) && 0 ≤ y && y < (BOARD_SIZE : Int)

/-- `getNeighbors` from the source: pushes `(x-1,y)`, `(x+1,y)`, `(x,y-1)`,
`(x,y+1)` in this order, each under its bound guard. -/
def getNeighbors (x y : Int) : List Coord :=
  (if x > 0 then [((x - 1 : Int), y)] else []) ++
  (if x < (BOARD_SIZE : Int) - 1 then [((x + 1 : Int), y)] else []) ++
  (if y > 0 then [(x, (y - 1 : Int))] else []) ++
  (if y < (BOARD_SIZE : Int) - 1 then [(x, (y + 1 : Int))] else [])

/-- Reading `board[y][x]`.  The source only reads guarded in-bounds cells; the
model returns `none` for any out-of-range coordinate. -/
def getCell (board : BoardState) (x y : Int) : Cell :=
  if 0 ≤ x ∧ 0 ≤ y then (board.getD y.toNat []).getD x.toNat none else none

/-- Writing `board[y][x] = v`.  The source only writes guarded in-bounds cells;
the model leaves the board unchanged for out-of-range coordinates. -/
def setCell (board : BoardState) (x y : Int) (v : Cell) : BoardState :=
  if 0 ≤ x ∧ 0 ≤ y then
    board.set y.toNat ((board.getD y.toNat []).set x.toNat v)
  else board

/-- Result record of `getGroupAndLiberties`: the group's member coordinates and
the size of the liberty set. -/
structure GroupResult where
  group : List Coord
  liberties : Nat
deriving DecidableEq

/-- The inner `for (const n of neighbors)` loop of the BFS: empty neighbours go
into the liberty set; unvisited same-coloured neighbours are marked visited and
pushed onto the queue. -/
def visitNeighbors (board : BoardState) (color : Player) :
    List Coord → List Coord → Finset Coord → Finset Coord →
    List Coord × Finset Coord × Finset Coord
  | [], queue, visited, libs => (queue, visited, libs)
  | n :: ns, queue, visited, libs =>
    match getCell board n.1 n.2 with
    | none => visitNeighbors board color ns queue visited (insert n libs)
    | some c =>
      if c = color ∧ n ∉ visited then
        visitNeighbors board color ns (queue ++ [n]) (insert n visited) libs
      else
        visitNeighbors board color ns queue visited libs

/-- The `while (queue.length > 0)` loop of `getGroupAndLiberties`, with fuel for
the unbounded source loop: shift the queue head, push it to the group, and scan
its neighbours. -/
def bfsLoop (board : BoardState) (color : Player) :
    Nat → List Coord → Finset Coord → List Coord → Finset Coord →
    List Coord × Finset Coord
  | 0, _, _, group, libs => (group, libs)
  | _ + 1, [], _, group, libs => (group, libs)
  | fuel + 1, current :: rest, visited, group, libs =>
    let v := visitNeighbors board color (getNeighbors current.1 current.2) rest visited libs
    bfsLoop board color fuel v.1 v.2.1 (group ++ [current]) v.2.2

/-- `getGroupAndLiberties` from the source: empty seed gives an empty group and
zero liberties; otherwise BFS from the seed with `visited = {seed}`,
`queue = [seed]`, returning the group and the liberty-set size. -/
def getGroupAndLiberties (board : BoardState) (x y : Int) : GroupResult :=
  match getCell board x y with
  | none => ⟨[], 0⟩
  | some color =>
    let r := bfsLoop board color (BOARD_SIZE * BOARD_SIZE + 1) [(x, y)] {(x, y)} [] ∅
    ⟨r.1, r.2.card⟩

/-- `player === 'black' ? 'white' : 'black'`. -/
def opponentOf (player : Player) : Player :=
  if player = Player.black then Player.white else Player.black

/-- JSON serialisation of one cell, as produced by `JSON.stringify`. -/
def cellString : Cell → String
  | none => "null"
  | some Player.black => "\"black\""
  | some Player.white => "\"white\""

def commaStr : String := ","

def lBrackStr : String := "["

def rBrackStr : String := "]"

/-- JSON serialisation of one row, as produced by `JSON.stringify`. -/
def rowString (row : List Cell) : String :=
  lBrackStr ++ String.intercalate commaStr (row.map cellString) ++ rBrackStr

/-- `JSON.stringify(newBoard)` — the board fingerprint used by the ko check.
A pure function of the board contents only. -/
def stringifyBoard (board : BoardState) : String :=
  lBrackStr ++ String.intercalate commaStr (board.map rowString) ++ rBrackStr

/-- The `MoveResult` interface of src/types.ts; fields absent in the source's
object literals are `none`. -/
structure MoveResult where
  success : Bool
  newBoard : Option BoardState
  capturedCount : Option Nat
  error : Option String
deriving DecidableEq

def errOutOfBounds : String := "Invalid position"

def errOccupied : String := "Position occupied"

def errSuicide : String := "Suicide move is forbidden"

def errKo : String := "Ko rule: cannot repeat position immediately"

def emptyStr : String := ""

/-- The body of the capture pass of `tryMakeMove` (`neighbors.forEach(...)`),
acting on the working (board, capturedCount) pair: if the neighbour n holds an
opponent stone on the current working board, resolve its group; if it has zero
liberties, remove every member and increment the captured count once per
removed stone. -/
def captureStep (opponent : Player) (acc : BoardState × Nat) (n : Coord) :
    BoardState × Nat :=
  if getCell acc.1 n.1 n.2 = some opponent then
    let r := getGroupAndLiberties acc.1 n.1 n.2
    if r.liberties = 0 then
      r.group.foldl (fun acc2 stone => (setCell acc2.1 stone.1 stone.2 none, acc2.2 + 1)) acc
    else acc
  else acc

/-- The capture pass of `tryMakeMove`: fold `captureStep` over the neighbours
of the placed stone, starting from the working board and a zero count. -/
def captureNeighbors (board : BoardState) (x y : Int) (opponent : Player) :
    BoardState × Nat :=
  (getNeighbors x y).foldl (captureStep opponent) (board, 0)

/-- `tryMakeMove` from the source: bounds check, occupancy check, tentative
placement on a copy, capture pass, suicide check, single-ply ko check against
`history[history.length - 2]`, then success. -/
def tryMakeMove (currentBoard : BoardState) (x y : Int) (player : Player)
    (history : List String) : MoveResult :=
  if !isOnBoard x y then ⟨false, none, none, some errOutOfBounds⟩
  else if getCell currentBoard x y ≠ none then ⟨false, none, none, some errOccupied⟩
  else
    let placed := setCell (copyBoard currentBoard) x y (some player)
    let res := captureNeighbors placed x y (opponentOf player)
    if (getGroupAndLiberties res.1 x y).liberties = 0 then
      ⟨false, none, none, some errSuicide⟩
    else
      let boardHash := stringifyBoard res.1
      if history.length > 1 ∧ history.getD (history.length - 2) emptyStr = boardHash then
        ⟨false, none, none, some errKo⟩
      else
        ⟨true, some res.1, some res.2, none⟩

/-! ### Basic facts: grid geometry, cell access, well-formed boards -/

theorem copyBoard_eq (board : BoardState) : copyBoard board = board := by
  simp [copyBoard]

/-- A board is well-formed when it is a 19×19 grid.  Per the spec, callers must
guarantee the board shape; the engine never repairs malformed input. -/
def WF (board : BoardState) : Prop :=
  board.length = BOARD_SIZE ∧ ∀ row ∈ board, row.length = BOARD_SIZE

instance : DecidablePred WF := fun _ => by unfold WF; infer_instance

/-- The coordinate lies on the 19×19 grid. -/
def onGrid (c : Coord) : Prop :=
  0 ≤ c.1 ∧ c.1 < (BOARD_SIZE : Int) ∧ 0 ≤ c.2 ∧ c.2 < (BOARD_SIZE : Int)

instance : DecidablePred onGrid := fun _ => by unfold onGrid; infer_instance

theorem isOnBoard_iff {x y : Int} : isOnBoard x y = true ↔ onGrid (x, y) := by
  simp [isOnBoard, onGrid, and_assoc]

theorem mem_ite_singleton {c : Prop} [Decidable c] {a e : Coord} :
    (e ∈ if c then [a] else ([] : List Coord)) ↔ c ∧ e = a := by
  split_ifs with h <;> simp [h]

theorem mem_getNeighbors {x y : Int} {e : Coord} :
    e ∈ getNeighbors x y ↔
      (0 < x ∧ e = (x - 1, y)) ∨ (x < 18 ∧ e = (x + 1, y)) ∨
      (0 < y ∧ e = (x, y - 1)) ∨ (y < 18 ∧ e = (x, y + 1)) := by
  have h19 : (BOARD_SIZE : Int) - 1 = 18 := by norm_num [BOARD_SIZE]
  unfold getNeighbors
  rw [h19]
  simp only [List.mem_append, mem_ite_singleton, or_assoc, gt_iff_lt]

theorem getNeighbors_onGrid {x y : Int} {e : Coord} (h : onGrid (x, y))
    (he : e ∈ getNeighbors x y) : onGrid e := by
  obtain ⟨hx0, hx1, hy0, hy1⟩ := h
  rcases mem_getNeighbors.1 he with ⟨h', rfl⟩ | ⟨h', rfl⟩ | ⟨h', rfl⟩ | ⟨h', rfl⟩ <;>
    refine ⟨?_, ?_, ?_, ?_⟩ <;> simp only [BOARD_SIZE] at * <;> omega

theorem getNeighbors_symm {p q : Coord} (hp : onGrid p) (hq : onGrid q)
    (h : q ∈ getNeighbors p.1 p.2) : p ∈ getNeighbors q.1 q.2 := by
  obtain ⟨px, py⟩ := p
  obtain ⟨qx, qy⟩ := q
  obtain ⟨hp1, hp2, hp3, hp4⟩ := hp
  obtain ⟨hq1, hq2, hq3, hq4⟩ := hq
  simp only [BOARD_SIZE] at *
  rcases mem_getNeighbors.1 h with ⟨h', he⟩ | ⟨h', he⟩ | ⟨h', he⟩ | ⟨h', he⟩ <;>
    rw [Prod.mk.injEq] at he <;>
    rw [mem_getNeighbors] <;> simp only [Prod.mk.injEq] <;> omega

theorem getCell_some_onGrid {b : BoardState} {x y : Int} {p : Player}
    (hWF : WF b) (h : getCell b x y = some p) : onGrid (x, y) := by
  unfold getCell at h
  by_cases hg : 0 ≤ x ∧ 0 ≤ y
  swap
  · rw [if_neg hg] at h
    simp at h
  rw [if_pos hg] at h
  obtain ⟨hx, hy⟩ := hg
  by_cases hyl : y.toNat < b.length
  swap
  · rw [List.getD_eq_getElem?_getD b, List.getElem?_len_le (by omega)] at h
    simp at h
  have hrow : b.getD y.toNat [] = b[y.toNat] := by
    rw [List.getD_eq_getElem?_getD, List.getElem?_eq_getElem hyl]
    rfl
  have hrlen : (b[y.toNat]).length = BOARD_SIZE := hWF.2 _ (List.getElem_mem hyl)
  by_cases hxl : x.toNat < BOARD_SIZE
  swap
  · rw [hrow, List.getD_eq_getElem?_getD, List.getElem?_len_le (by rw [hrlen]; omega)] at h
    simp at h
  have h1 : y.toNat < BOARD_SIZE := hWF.1 ▸ hyl
  simp only [onGrid]
  simp only [BOARD_SIZE] at hxl h1 ⊢
  refine ⟨hx, by omega, hy, by omega⟩

theorem getCell_setCell_ne {b : BoardState} {x y x' y' : Int} {v : Cell}
    (h : (x', y') ≠ (x, y)) : getCell (setCell b x y v) x' y' = getCell b x' y' := by
  unfold setCell
  split_ifs with hg
  · unfold getCell
    split_ifs with hg'
    · obtain ⟨hx, hy⟩ := hg
      obtain ⟨hx', hy'⟩ := hg'
      by_cases hyy : y'.toNat = y.toNat
      · have hy'y : y' = y := by omega
        have hxx : x'.toNat ≠ x.toNat := by
          have : x' ≠ x := by
            intro hc
            exact h (by rw [hc, hy'y])
          omega
        by_cases hyl : y.toNat < b.length
        · rw [hyy]
          rw [List.getD_eq_getElem?_getD (b.set y.toNat _), List.getElem?_set_self hyl]
          rw [Option.getD_some, List.getD_eq_getElem?_getD ((b.getD y.toNat []).set x.toNat v),
            List.getElem?_set_ne (Ne.symm hxx), ← List.getD_eq_getElem?_getD]
        · rw [List.set_eq_of_length_le (by omega)]
      · rw [List.getD_eq_getElem?_getD (b.set y.toNat _), List.getElem?_set_ne (by omega),
          ← List.getD_eq_getElem?_getD]
    · rfl
  · rfl

theorem getCell_setCell_self {b : BoardState} {x y : Int} {v : Cell}
    (hWF : WF b) (h : onGrid (x, y)) : getCell (setCell b x y v) x y = v := by
  obtain ⟨hx0, hx1, hy0, hy1⟩ := h
  simp only [BOARD_SIZE] at hx1 hy1
  have hyl : y.toNat < b.length := by
    rw [hWF.1]; simp only [BOARD_SIZE]; omega
  have hrow : b.getD y.toNat [] = b[y.toNat] := by
    rw [List.getD_eq_getElem?_getD, List.getElem?_eq_getElem hyl]
    rfl
  have hrlen : (b[y.toNat]).length = BOARD_SIZE := hWF.2 _ (List.getElem_mem hyl)
  have hxl : x.toNat < (b.getD y.toNat []).length := by
    rw [hrow, hrlen]; simp only [BOARD_SIZE]; omega
  unfold setCell getCell
  rw [if_pos ⟨hx0, hy0⟩, if_pos ⟨hx0, hy0⟩]
  rw [List.getD_eq_getElem?_getD (b.set y.toNat _), List.getElem?_set_self hyl]
  rw [Option.getD_some]
  rw [List.getD_eq_getElem?_getD, List.getElem?_set_self hxl]
  rfl

theorem WF_setCell {b : BoardState} {x y : Int} {v : Cell} (hWF : WF b) :
    WF (setCell b x y v) := by
  unfold setCell
  split_ifs with hg
  · refine ⟨by rw [List.length_set]; exact hWF.1, ?_⟩
    intro row hrow
    by_cases hyl : y.toNat < b.length
    · rcases List.mem_or_eq_of_mem_set hrow with hmem | rfl
      · exact hWF.2 _ hmem
      · rw [List.length_set]
        have : b.getD y.toNat [] = b[y.toNat] := by
          rw [List.getD_eq_getElem?_getD, List.getElem?_eq_getElem hyl]
          rfl
        rw [this]
        exact hWF.2 _ (List.getElem_mem hyl)
    · rw [List.set_eq_of_length_le (by omega)] at hrow
      exact hWF.2 _ hrow
  · exact hWF

def gridCells : Finset Coord := Finset.Icc (0 : Int) 18 ×ˢ Finset.Icc (0 : Int) 18

theorem mem_gridCells {c : Coord} : c ∈ gridCells ↔ onGrid c := by
  obtain ⟨cx, cy⟩ := c
  simp only [gridCells, Finset.mem_product, Finset.mem_Icc, onGrid, BOARD_SIZE]
  omega

theorem card_gridCells : gridCells.card = BOARD_SIZE * BOARD_SIZE := by
  rw [gridCells, Finset.card_product, Int.card_Icc]
  rfl

/-! ### Reachability: the mathematical specification of a group -/

/-- One traversal step: q is an in-bounds neighbour of p holding a stone of
the given colour. -/
def Step (board : BoardState) (color : Player) (p q : Coord) : Prop :=
  q ∈ getNeighbors p.1 p.2 ∧ getCell board q.1 q.2 = some color

/-- c is connected to the seed s through a chain of 4-adjacent stones of the
given colour. -/
def Reach (board : BoardState) (color : Player) (s c : Coord) : Prop :=
  Relation.ReflTransGen (Step board color) s c

theorem getCell_some_onGrid' {b : BoardState} {d : Coord} {p : Player}
    (hWF : WF b) (h : getCell b d.1 d.2 = some p) : onGrid d := by
  have := getCell_some_onGrid hWF h
  rwa [Prod.mk.eta] at this

theorem reach_getCell {b : BoardState} {color : Player} {s c : Coord}
    (hs : getCell b s.1 s.2 = some color) (h : Reach b color s c) :
    getCell b c.1 c.2 = some color := by
  induction h with
  | refl => exact hs
  | tail _ hstep _ => exact hstep.2

theorem reach_mono {b b' : BoardState} {color : Player} {s c : Coord}
    (hmono : ∀ d : Coord, getCell b d.1 d.2 = some color → getCell b' d.1 d.2 = some color)
    (h : Reach b color s c) : Reach b' color s c := by
  induction h with
  | refl => exact .refl
  | tail _ hstep ih => exact ih.tail ⟨hstep.1, hmono _ hstep.2⟩

theorem reach_avoid {b b' : BoardState} {color : Player} {s c : Coord} {Z : Set Coord}
    (hagree : ∀ d : Coord, d ∉ Z → getCell b d.1 d.2 = some color →
      getCell b' d.1 d.2 = some color)
    (havoid : ∀ d : Coord, Reach b color s d → d ∉ Z)
    (h : Reach b color s c) : Reach b' color s c := by
  induction h with
  | refl => exact .refl
  | tail hr hstep ih =>
    exact ih.tail ⟨hstep.1, hagree _ (havoid _ (hr.tail hstep)) hstep.2⟩

theorem reach_symm {b : BoardState} {color : Player} {s c : Coord}
    (hWF : WF b) (hs : getCell b s.1 s.2 = some color)
    (h : Reach b color s c) : Reach b color c s := by
  induction h with
  | refl => exact .refl
  | tail hr hstep ih =>
    have hmid := reach_getCell hs hr
    have h1 := getCell_some_onGrid' hWF hmid
    have h2 := getCell_some_onGrid' hWF hstep.2
    exact Relation.ReflTransGen.head ⟨getNeighbors_symm h1 h2 hstep.1, hmid⟩ ih

theorem reach_component {b : BoardState} {color : Player} {s c : Coord}
    (hWF : WF b) (hs : getCell b s.1 s.2 = some color)
    (hc : Reach b color s c) (d : Coord) :
    Reach b color c d ↔ Reach b color s d :=
  ⟨fun h => hc.trans h, fun h => (reach_symm hWF hs hc).trans h⟩

/-- The set of liberties of a list of stones: the distinct empty cells adjacent
to at least one member. -/
def libsOf (board : BoardState) (group : List Coord) : Finset Coord :=
  group.toFinset.biUnion fun g =>
    ((getNeighbors g.1 g.2).filter fun e => decide (getCell board e.1 e.2 = none)).toFinset

theorem mem_libsOf {board : BoardState} {group : List Coord} {e : Coord} :
    e ∈ libsOf board group ↔
      ∃ g ∈ group, e ∈ getNeighbors g.1 g.2 ∧ getCell board e.1 e.2 = none := by
  simp [libsOf, List.mem_filter]

/-! ### The BFS loop invariant and the characterisation of getGroupAndLiberties -/

/-- Invariant of the source's BFS loop state: visited is the processed group
plus the pending queue, with no duplication; everything visited is a stone of
the group's colour reachable from the seed; processed cells have all their
same-coloured neighbours visited; libs is exactly the set of empty neighbours
of processed cells. -/
structure BfsInv (b : BoardState) (color : Player) (seed : Coord)
    (queue : List Coord) (visited : Finset Coord) (group : List Coord)
    (libs : Finset Coord) : Prop where
  vis_eq : visited = group.toFinset ∪ queue.toFinset
  disj : ∀ c ∈ group, c ∉ queue
  nodupG : group.Nodup
  nodupQ : queue.Nodup
  seed_mem : seed ∈ visited
  mem_ok : ∀ c ∈ visited, getCell b c.1 c.2 = some color ∧ Reach b color seed c
  closedG : ∀ g ∈ group, ∀ n ∈ getNeighbors g.1 g.2,
    getCell b n.1 n.2 = some color → n ∈ visited
  libs_ok : ∀ e, e ∈ libs ↔
    ∃ g ∈ group, e ∈ getNeighbors g.1 g.2 ∧ getCell b e.1 e.2 = none

theorem visitNeighbors_spec (b : BoardState) (color : Player) :
    ∀ (ns queue : List Coord) (visited libs : Finset Coord),
    ∃ added : List Coord,
      visitNeighbors b color ns queue visited libs =
        (queue ++ added, visited ∪ added.toFinset,
          libs ∪ ((ns.filter fun e => decide (getCell b e.1 e.2 = none)).toFinset)) ∧
      added.Nodup ∧ (∀ a ∈ added, a ∉ visited) ∧
      (∀ a ∈ added, getCell b a.1 a.2 = some color ∧ a ∈ ns) ∧
      visited ∪ added.toFinset =
        visited ∪ ((ns.filter fun n => decide (getCell b n.1 n.2 = some color)).toFinset) := by
  intro ns
  induction ns with
  | nil =>
    intro queue visited libs
    exact ⟨[], by simp [visitNeighbors], by simp, by simp, by simp, by simp⟩
  | cons n ns ih =>
    intro queue visited libs
    rcases hcell : getCell b n.1 n.2 with _ | c
    · obtain ⟨added, heq, hnd, hnv, hcol, hvis⟩ := ih queue visited (insert n libs)
      refine ⟨added, ?_, hnd, hnv, ?_, ?_⟩
      · rw [show visitNeighbors b color (n :: ns) queue visited libs =
              visitNeighbors b color ns queue visited (insert n libs) from by
            simp [visitNeighbors, hcell]]
        rw [heq, List.filter_cons_of_pos (by simp [hcell])]
        simp only [Prod.mk.injEq, List.toFinset_cons]
        refine ⟨by trivial, by trivial, ?_⟩
        ext a
        simp only [Finset.mem_union, Finset.mem_insert]
        tauto
      · exact fun a ha => ⟨(hcol a ha).1, List.mem_cons_of_mem _ (hcol a ha).2⟩
      · rw [List.filter_cons_of_neg (by simp [hcell])]
        exact hvis
    · by_cases hc : c = color ∧ n ∉ visited
      · obtain ⟨added, heq, hnd, hnv, hcol, hvis⟩ := ih (queue ++ [n]) (insert n visited) libs
        have hfc : (List.filter (fun m => decide (getCell b m.1 m.2 = some color)) (n :: ns)) =
            n :: List.filter (fun m => decide (getCell b m.1 m.2 = some color)) ns := by
          rw [List.filter_cons_of_pos (by simp [hcell, hc.1])]
        refine ⟨n :: added, ?_, ?_, ?_, ?_, ?_⟩
        · rw [show visitNeighbors b color (n :: ns) queue visited libs =
                visitNeighbors b color ns (queue ++ [n]) (insert n visited) libs from by
              simp only [visitNeighbors, hcell]
              rw [if_pos hc]]
          rw [heq, List.filter_cons_of_neg (by simp [hcell])]
          simp only [Prod.mk.injEq, List.toFinset_cons]
          refine ⟨?_, ?_, by trivial⟩
          · rw [List.append_assoc, List.singleton_append]
          · ext a
            simp only [Finset.mem_union, Finset.mem_insert]
            tauto
        · rw [List.nodup_cons]
          refine ⟨fun hmem => (hnv n hmem) (Finset.mem_insert_self n visited), hnd⟩
        · intro a ha
          rcases List.mem_cons.1 ha with rfl | ha'
          · exact hc.2
          · exact fun hav => (hnv a ha') (Finset.mem_insert_of_mem hav)
        · intro a ha
          rcases List.mem_cons.1 ha with rfl | ha'
          · exact ⟨by rw [hcell, hc.1], List.mem_cons_self _ _⟩
          · exact ⟨(hcol a ha').1, List.mem_cons_of_mem _ (hcol a ha').2⟩
        · have hvis' : ∀ a : Coord, a ∈ insert n visited ∪ added.toFinset ↔
              a ∈ insert n visited ∪
                (List.filter (fun m => decide (getCell b m.1 m.2 = some color)) ns).toFinset :=
            fun a => by rw [hvis]
          ext a
          have h1 := hvis' a
          simp only [Finset.mem_union, Finset.mem_insert, List.mem_toFinset, List.mem_cons,
            hfc] at h1 ⊢
          tauto
      · obtain ⟨added, heq, hnd, hnv, hcol, hvis⟩ := ih queue visited libs
        refine ⟨added, ?_, hnd, hnv, ?_, ?_⟩
        · rw [show visitNeighbors b color (n :: ns) queue visited libs =
                visitNeighbors b color ns queue visited libs from by
              simp only [visitNeighbors, hcell]
              rw [if_neg hc]]
          rw [heq, List.filter_cons_of_neg (by simp [hcell])]
        · exact fun a ha => ⟨(hcol a ha).1, List.mem_cons_of_mem _ (hcol a ha).2⟩
        · by_cases hcc : c = color
          · have hnvis : n ∈ visited := by
              by_contra hcon
              exact hc ⟨hcc, hcon⟩
            rw [List.filter_cons_of_pos (by simp [hcell, hcc]), List.toFinset_cons,
              Finset.union_insert, Finset.insert_eq_self.2 (Finset.mem_union_left _ hnvis)]
            exact hvis
          · rw [List.filter_cons_of_neg (by simp [hcell, hcc])]
            exact hvis

theorem bfsLoop_spec {b : BoardState} {color : Player} {seed : Coord} (hWF : WF b) :
    ∀ (fuel : Nat) (queue : List Coord) (visited : Finset Coord) (group : List Coord)
      (libs : Finset Coord),
      BfsInv b color seed queue visited group libs →
      queue.length + (BOARD_SIZE * BOARD_SIZE - visited.card) < fuel →
      (bfsLoop b color fuel queue visited group libs).1.Nodup ∧
      (∀ c, c ∈ (bfsLoop b color fuel queue visited group libs).1 ↔ Reach b color seed c) ∧
      (∀ e, e ∈ (bfsLoop b color fuel queue visited group libs).2 ↔
        ∃ g ∈ (bfsLoop b color fuel queue visited group libs).1,
          e ∈ getNeighbors g.1 g.2 ∧ getCell b e.1 e.2 = none) := by
  intro fuel
  induction fuel with
  | zero =>
    intro queue visited group libs _ hfuel
    omega
  | succ fuel ih =>
    intro queue visited group libs hinv hfuel
    rcases queue with _ | ⟨current, rest⟩
    · have hrun : bfsLoop b color (fuel + 1) [] visited group libs = (group, libs) := rfl
      rw [hrun]
      have hvg : visited = group.toFinset := by
        have := hinv.vis_eq
        simpa using this
      refine ⟨hinv.nodupG, ?_, hinv.libs_ok⟩
      intro c
      constructor
      · intro hc
        exact (hinv.mem_ok c (by rw [hvg]; exact List.mem_toFinset.2 hc)).2
      · intro hreach
        induction hreach with
        | refl =>
          have := hinv.seed_mem
          rw [hvg] at this
          exact List.mem_toFinset.1 this
        | tail hr hstep ihh =>
          have := hinv.closedG _ ihh _ hstep.1 hstep.2
          rw [hvg] at this
          exact List.mem_toFinset.1 this
    · obtain ⟨added, heq, hnd, hnv, hcol, hvis⟩ :=
        visitNeighbors_spec b color (getNeighbors current.1 current.2) rest visited libs
      have hcur_vis : current ∈ visited := by
        rw [hinv.vis_eq]
        exact Finset.mem_union_right _ (List.mem_toFinset.2 (List.mem_cons_self _ _))
      have hrun : bfsLoop b color (fuel + 1) (current :: rest) visited group libs =
          bfsLoop b color fuel (rest ++ added) (visited ∪ added.toFinset)
            (group ++ [current])
            (libs ∪ ((getNeighbors current.1 current.2).filter
              (fun e => decide (getCell b e.1 e.2 = none))).toFinset) := by
        show (let v := visitNeighbors b color (getNeighbors current.1 current.2) rest visited libs
          bfsLoop b color fuel v.1 v.2.1 (group ++ [current]) v.2.2) = _
        rw [heq]
      rw [hrun]
      have hsub : visited ∪ added.toFinset ⊆ gridCells := by
        intro c hc
        rcases Finset.mem_union.1 hc with hc' | hc'
        · exact mem_gridCells.2 (getCell_some_onGrid' hWF (hinv.mem_ok c hc').1)
        · exact mem_gridCells.2
            (getCell_some_onGrid' hWF (hcol c (List.mem_toFinset.1 hc')).1)
      have hcard : (visited ∪ added.toFinset).card = visited.card + added.length := by
        rw [Finset.card_union_of_disjoint, List.toFinset_card_of_nodup hnd]
        rw [Finset.disjoint_left]
        intro a ha ha'
        exact hnv a (List.mem_toFinset.1 ha') ha
      have hcard_le : (visited ∪ added.toFinset).card ≤ BOARD_SIZE * BOARD_SIZE := by
        calc (visited ∪ added.toFinset).card ≤ gridCells.card := Finset.card_le_card hsub
        _ = BOARD_SIZE * BOARD_SIZE := card_gridCells
      apply ih
      · constructor
        case vis_eq =>
          have h0 := hinv.vis_eq
          ext a
          have h0' : a ∈ visited ↔ a ∈ group.toFinset ∪ (current :: rest).toFinset := by
            rw [h0]
          simp only [Finset.mem_union, List.mem_toFinset, List.mem_cons,
            List.mem_append] at h0' ⊢
          tauto
        case disj =>
          intro c hc
          rcases List.mem_append.1 hc with hc' | hc'
          · intro hmem
            rcases List.mem_append.1 hmem with hm | hm
            · exact hinv.disj c hc' (List.mem_cons_of_mem _ hm)
            · refine hnv c hm ?_
              rw [hinv.vis_eq]
              exact Finset.mem_union_left _ (List.mem_toFinset.2 hc')
          · rw [List.mem_singleton] at hc'
            subst hc'
            intro hmem
            rcases List.mem_append.1 hmem with hm | hm
            · exact (List.nodup_cons.1 hinv.nodupQ).1 hm
            · exact hnv c hm hcur_vis
        case nodupG =>
          rw [List.nodup_append]
          refine ⟨hinv.nodupG, List.nodup_singleton _, ?_⟩
          intro a ha ha'
          rw [List.mem_singleton] at ha'
          subst ha'
          exact hinv.disj a ha (List.mem_cons_self _ _)
        case nodupQ =>
          rw [List.nodup_append]
          refine ⟨(List.nodup_cons.1 hinv.nodupQ).2, hnd, ?_⟩
          intro a ha ha'
          refine hnv a ha' ?_
          rw [hinv.vis_eq]
          exact Finset.mem_union_right _ (List.mem_toFinset.2 (List.mem_cons_of_mem _ ha))
        case seed_mem => exact Finset.mem_union_left _ hinv.seed_mem
        case mem_ok =>
          intro c hc
          rcases Finset.mem_union.1 hc with hc' | hc'
          · exact hinv.mem_ok c hc'
          · have h1 := hcol c (List.mem_toFinset.1 hc')
            exact ⟨h1.1, (hinv.mem_ok current hcur_vis).2.tail ⟨h1.2, h1.1⟩⟩
        case closedG =>
          intro g hg n hn hcoln
          rcases List.mem_append.1 hg with hg' | hg'
          · exact Finset.mem_union_left _ (hinv.closedG g hg' n hn hcoln)
          · rw [List.mem_singleton] at hg'
            subst hg'
            have : n ∈ visited ∪ ((getNeighbors g.1 g.2).filter
                (fun m => decide (getCell b m.1 m.2 = some color))).toFinset := by
              by_cases hnvis : n ∈ visited
              · exact Finset.mem_union_left _ hnvis
              · refine Finset.mem_union_right _ ?_
                rw [List.mem_toFinset, List.mem_filter]
                exact ⟨hn, by simp [hcoln]⟩
            rw [← hvis] at this
            exact this
        case libs_ok =>
          intro e
          have h1 := hinv.libs_ok e
          simp only [Finset.mem_union, List.mem_toFinset, List.mem_filter,
            decide_eq_true_eq] at h1 ⊢
          constructor
          · intro hh
            rcases hh with hh | hh
            · obtain ⟨g, hg1, hg2⟩ := h1.1 hh
              exact ⟨g, List.mem_append.2 (Or.inl hg1), hg2⟩
            · exact ⟨current, List.mem_append.2 (Or.inr (List.mem_singleton.2 rfl)), hh⟩
          · rintro ⟨g, hg1, hg2⟩
            rcases List.mem_append.1 hg1 with hg' | hg'
            · exact Or.inl (h1.2 ⟨g, hg', hg2⟩)
            · rw [List.mem_singleton] at hg'
              subst hg'
              exact Or.inr hg2
      · have hlen : (rest ++ added).length = rest.length + added.length :=
          List.length_append _ _
        rw [hlen, hcard]
        simp only [List.length_cons] at hfuel
        omega

theorem getGroupAndLiberties_spec {b : BoardState} {x y : Int} {color : Player}
    (hWF : WF b) (h : getCell b x y = some color) :
    (getGroupAndLiberties b x y).group.Nodup ∧
    (∀ c, c ∈ (getGroupAndLiberties b x y).group ↔ Reach b color (x, y) c) ∧
    (getGroupAndLiberties b x y).liberties =
      (libsOf b (getGroupAndLiberties b x y).group).card := by
  have hinv : BfsInv b color (x, y) [(x, y)] {(x, y)} [] ∅ := by
    constructor
    case vis_eq => simp
    case disj => simp
    case nodupG => exact List.nodup_nil
    case nodupQ => exact List.nodup_singleton _
    case seed_mem => exact Finset.mem_singleton_self _
    case mem_ok =>
      intro c hc
      rw [Finset.mem_singleton] at hc
      subst hc
      exact ⟨h, .refl⟩
    case closedG => simp
    case libs_ok => simp
  have hfuel : ([(x, y)] : List Coord).length +
      (BOARD_SIZE * BOARD_SIZE - ({(x, y)} : Finset Coord).card) <
      BOARD_SIZE * BOARD_SIZE + 1 := by
    rw [List.length_singleton, Finset.card_singleton]
    simp only [BOARD_SIZE]
    omega
  obtain ⟨h1, h2, h3⟩ := bfsLoop_spec hWF (BOARD_SIZE * BOARD_SIZE + 1)
    [(x, y)] {(x, y)} [] ∅ hinv hfuel
  have hdef : getGroupAndLiberties b x y =
      ⟨(bfsLoop b color (BOARD_SIZE * BOARD_SIZE + 1) [(x, y)] {(x, y)} [] ∅).1,
       (bfsLoop b color (BOARD_SIZE * BOARD_SIZE + 1) [(x, y)] {(x, y)} [] ∅).2.card⟩ := by
    unfold getGroupAndLiberties
    rw [h]
  rw [hdef]
  refine ⟨h1, h2, ?_⟩
  have : (bfsLoop b color (BOARD_SIZE * BOARD_SIZE + 1) [(x, y)] {(x, y)} [] ∅).2 =
      libsOf b (bfsLoop b color (BOARD_SIZE * BOARD_SIZE + 1) [(x, y)] {(x, y)} [] ∅).1 := by
    ext e
    rw [h3 e, mem_libsOf]
  rw [this]

/-! ### The capture pass of tryMakeMove -/

/-- A coordinate qualifies for capture on board P when it holds an opponent
stone whose group has zero liberties on P. -/
def qualifies (P : BoardState) (opp : Player) (n : Coord) : Prop :=
  getCell P n.1 n.2 = some opp ∧ (getGroupAndLiberties P n.1 n.2).liberties = 0

instance (P : BoardState) (opp : Player) : DecidablePred (qualifies P opp) :=
  fun _ => by unfold qualifies; infer_instance

/-- The group of a coordinate, as a finite set. -/
def groupFin (P : BoardState) (n : Coord) : Finset Coord :=
  (getGroupAndLiberties P n.1 n.2).group.toFinset

/-- The union of the groups of all qualifying coordinates of a list. -/
def capturedAlong (P : BoardState) (opp : Player) (ns : List Coord) : Finset Coord :=
  (ns.filter fun n => decide (qualifies P opp n)).toFinset.biUnion fun n => groupFin P n

/-- The stones captured by a placement at (x, y): the union of the groups of
the qualifying neighbours of (x, y) on the post-placement board P. -/
def capturedSet (P : BoardState) (x y : Int) (opp : Player) : Finset Coord :=
  capturedAlong P opp (getNeighbors x y)

theorem mem_capturedAlong {P : BoardState} {opp : Player} {ns : List Coord} {c : Coord} :
    c ∈ capturedAlong P opp ns ↔ ∃ n ∈ ns, qualifies P opp n ∧ c ∈ groupFin P n := by
  simp [capturedAlong, List.mem_filter, and_assoc]

theorem mem_groupFin {P : BoardState} {opp : Player} {n c : Coord} (hWF : WF P)
    (hn : getCell P n.1 n.2 = some opp) : c ∈ groupFin P n ↔ Reach P opp n c := by
  have h := (getGroupAndLiberties_spec hWF hn).2.1 c
  rw [groupFin, List.mem_toFinset, h, Prod.mk.eta]

theorem libsOf_congr {b : BoardState} {g1 g2 : List Coord}
    (h : g1.toFinset = g2.toFinset) : libsOf b g1 = libsOf b g2 := by
  rw [libsOf, libsOf, h]

theorem groupFin_trans {P : BoardState} {opp : Player} {n c : Coord} (hWF : WF P)
    (hn : getCell P n.1 n.2 = some opp) (hc : c ∈ groupFin P n) :
    getCell P c.1 c.2 = some opp ∧ groupFin P c = groupFin P n ∧
    (getGroupAndLiberties P c.1 c.2).liberties =
      (getGroupAndLiberties P n.1 n.2).liberties := by
  have hreach : Reach P opp n c := (mem_groupFin hWF hn).1 hc
  have hcol : getCell P c.1 c.2 = some opp := reach_getCell hn hreach
  have hgf : groupFin P c = groupFin P n := by
    ext d
    rw [mem_groupFin hWF hcol, mem_groupFin hWF hn]
    exact reach_component hWF hn hreach d
  refine ⟨hcol, hgf, ?_⟩
  rw [(getGroupAndLiberties_spec hWF hcol).2.2, (getGroupAndLiberties_spec hWF hn).2.2]
  have : libsOf P (getGroupAndLiberties P c.1 c.2).group =
      libsOf P (getGroupAndLiberties P n.1 n.2).group := libsOf_congr hgf
  rw [this]

theorem capturedAlong_closed {P : BoardState} {opp : Player} {ns : List Coord} {c : Coord}
    (hWF : WF P) (hc : c ∈ capturedAlong P opp ns) :
    getCell P c.1 c.2 = some opp ∧ qualifies P opp c ∧
    groupFin P c ⊆ capturedAlong P opp ns := by
  obtain ⟨n, hn_mem, hq, hcg⟩ := mem_capturedAlong.1 hc
  obtain ⟨hcol, hgf, hlib⟩ := groupFin_trans hWF hq.1 hcg
  refine ⟨hcol, ⟨hcol, by rw [hlib]; exact hq.2⟩, ?_⟩
  intro d hd
  rw [hgf] at hd
  exact mem_capturedAlong.2 ⟨n, hn_mem, hq, hd⟩

theorem reach_avoid_captured {P : BoardState} {opp : Player} {ns : List Coord} {m : Coord}
    (hWF : WF P) (hm_col : getCell P m.1 m.2 = some opp)
    (hm : m ∉ capturedAlong P opp ns) :
    ∀ d, Reach P opp m d → d ∉ capturedAlong P opp ns := by
  intro d hreach hd
  obtain ⟨hcol, _, hsub⟩ := capturedAlong_closed hWF hd
  have : m ∈ groupFin P d := (mem_groupFin hWF hcol).2 (reach_symm hWF hm_col hreach)
  exact hm (hsub this)

theorem capturedAlong_append {P : BoardState} {opp : Player} {ns : List Coord} {m : Coord} :
    capturedAlong P opp (ns ++ [m]) =
      capturedAlong P opp ns ∪
        (if qualifies P opp m then groupFin P m else ∅) := by
  ext c
  rw [Finset.mem_union, mem_capturedAlong, mem_capturedAlong]
  split_ifs with hq
  · constructor
    · rintro ⟨n, hn, h1, h2⟩
      rcases List.mem_append.1 hn with hn' | hn'
      · exact Or.inl ⟨n, hn', h1, h2⟩
      · rw [List.mem_singleton] at hn'
        subst hn'
        exact Or.inr h2
    · rintro (⟨n, hn, h1, h2⟩ | hc)
      · exact ⟨n, List.mem_append.2 (Or.inl hn), h1, h2⟩
      · exact ⟨m, List.mem_append.2 (Or.inr (List.mem_singleton.2 rfl)), hq, hc⟩
  · simp only [Finset.not_mem_empty, or_false]
    constructor
    · rintro ⟨n, hn, h1, h2⟩
      rcases List.mem_append.1 hn with hn' | hn'
      · exact ⟨n, hn', h1, h2⟩
      · rw [List.mem_singleton] at hn'
        subst hn'
        exact absurd h1 hq
    · rintro ⟨n, hn, h1, h2⟩
      exact ⟨n, List.mem_append.2 (Or.inl hn), h1, h2⟩

/-- Removing a closed set D of stones that no cell reachable from m belongs to
does not change what is reachable from m. -/
theorem reach_erase_iff {P b' : BoardState} {opp : Player} {D : Finset Coord} {m : Coord}
    (hb' : ∀ c : Coord, getCell b' c.1 c.2 = if c ∈ D then none else getCell P c.1 c.2)
    (hD : ∀ d, Reach P opp m d → d ∉ D)
    (c : Coord) : Reach b' opp m c ↔ Reach P opp m c := by
  constructor
  · apply reach_mono
    intro d hd
    have h1 := hb' d
    split_ifs at h1 with h
    · rw [h1] at hd
      exact absurd hd (by simp)
    · rwa [h1] at hd
  · apply reach_avoid (Z := (↑D : Set Coord))
    · intro d hd hcol
      rw [hb' d, if_neg (by simpa using hd)]
      exact hcol
    · intro d hd
      simpa using hD d hd

theorem group_erase_eq {P b' : BoardState} {opp : Player} {D : Finset Coord} {m : Coord}
    (hWF : WF P) (hWF' : WF b')
    (hb' : ∀ c : Coord, getCell b' c.1 c.2 = if c ∈ D then none else getCell P c.1 c.2)
    (hD : ∀ d, Reach P opp m d → d ∉ D)
    (hm_col : getCell P m.1 m.2 = some opp) (hm : m ∉ D) :
    (getGroupAndLiberties b' m.1 m.2).group.toFinset = groupFin P m := by
  have hm_col' : getCell b' m.1 m.2 = some opp := by
    rw [hb' m, if_neg hm]
    exact hm_col
  ext d
  have h1 : (getGroupAndLiberties b' m.1 m.2).group.toFinset = groupFin b' m := rfl
  rw [h1, mem_groupFin hWF' hm_col', mem_groupFin hWF hm_col]
  exact reach_erase_iff hb' hD d

/-- Removing a closed set D of opponent stones that is neither part of nor
adjacent to the group of m leaves the liberty count of m's group unchanged. -/
theorem liberties_erase_eq {P b' : BoardState} {opp : Player} {D : Finset Coord} {m : Coord}
    (hWF : WF P) (hWF' : WF b')
    (hb' : ∀ c : Coord, getCell b' c.1 c.2 = if c ∈ D then none else getCell P c.1 c.2)
    (hD : ∀ d, Reach P opp m d → d ∉ D)
    (hDcol : ∀ d ∈ D, getCell P d.1 d.2 = some opp)
    (hm_col : getCell P m.1 m.2 = some opp) (hm : m ∉ D) :
    (getGroupAndLiberties b' m.1 m.2).liberties =
      (getGroupAndLiberties P m.1 m.2).liberties := by
  have hm_col' : getCell b' m.1 m.2 = some opp := by
    rw [hb' m, if_neg hm]
    exact hm_col
  rw [(getGroupAndLiberties_spec hWF' hm_col').2.2, (getGroupAndLiberties_spec hWF hm_col).2.2]
  have hgr := group_erase_eq hWF hWF' hb' hD hm_col hm
  have hset : libsOf b' (getGroupAndLiberties b' m.1 m.2).group =
      libsOf P (getGroupAndLiberties P m.1 m.2).group := by
    ext e
    rw [mem_libsOf, mem_libsOf]
    constructor
    · rintro ⟨g, hg, hgn, hge⟩
      have hgF : g ∈ groupFin P m := by
        rw [← hgr]
        exact List.mem_toFinset.2 hg
      have hreach_g : Reach P opp m g := (mem_groupFin hWF hm_col).1 hgF
      refine ⟨g, List.mem_toFinset.1 hgF, hgn, ?_⟩
      have h1 := hb' e
      split_ifs at h1 with he
      · have hecol := hDcol e he
        exact absurd he (hD e (hreach_g.tail ⟨hgn, hecol⟩))
      · rwa [h1] at hge
    · rintro ⟨g, hg, hgn, hge⟩
      have hgF : g ∈ groupFin P m := List.mem_toFinset.2 hg
      refine ⟨g, List.mem_toFinset.1 (by rw [hgr]; exact hgF), hgn, ?_⟩
      rw [hb' e]
      split_ifs with he
      · rfl
      · exact hge
  rw [hset]

/-- The inner removal fold of the capture pass: pointwise effect on the board
and exact count increment. -/
theorem foldl_remove_spec (l : List Coord) :
    ∀ (b : BoardState) (k : Nat), WF b → (∀ s ∈ l, onGrid s) →
      WF ((l.foldl (fun acc2 stone => (setCell acc2.1 stone.1 stone.2 none, acc2.2 + 1))
        (b, k)).1) ∧
      ((l.foldl (fun acc2 stone => (setCell acc2.1 stone.1 stone.2 none, acc2.2 + 1))
        (b, k)).2 = k + l.length) ∧
      (∀ c : Coord,
        getCell ((l.foldl (fun acc2 stone => (setCell acc2.1 stone.1 stone.2 none, acc2.2 + 1))
          (b, k)).1) c.1 c.2 = if c ∈ l then none else getCell b c.1 c.2) := by
  induction l with
  | nil =>
    intro b k hWF _
    exact ⟨hWF, by simp, fun c => by simp⟩
  | cons s l ih =>
    intro b k hWF hgrid
    rw [List.foldl_cons]
    obtain ⟨h1, h2, h3⟩ := ih (setCell b s.1 s.2 none) (k + 1) (WF_setCell hWF)
      (fun t ht => hgrid t (List.mem_cons_of_mem _ ht))
    refine ⟨h1, by rw [h2, List.length_cons]; omega, ?_⟩
    intro c
    rw [h3 c]
    by_cases hcl : c ∈ l
    · rw [if_pos hcl, if_pos (List.mem_cons_of_mem _ hcl)]
    · rw [if_neg hcl]
      by_cases hcs : c = s
      · subst hcs
        rw [if_pos (List.mem_cons_self _ _)]
        exact getCell_setCell_self hWF
          (by rw [Prod.mk.eta]; exact hgrid c (List.mem_cons_self _ _))
      · rw [if_neg (by simp [hcs, hcl])]
        exact getCell_setCell_ne (by rw [Prod.mk.eta, Prod.mk.eta]; exact hcs)

/-- Master lemma for the capture pass: folding `captureStep` over any list of
coordinates removes exactly the union of the groups of its qualifying
coordinates (each a full zero-liberty opponent group on P), and the count is
the size of that union. -/
theorem captureLoop_spec {P : BoardState} {opp : Player} (hWF : WF P) (ns : List Coord) :
    WF ((ns.foldl (captureStep opp) (P, 0)).1) ∧
    (∀ c : Coord, getCell ((ns.foldl (captureStep opp) (P, 0)).1) c.1 c.2 =
      if c ∈ capturedAlong P opp ns then none else getCell P c.1 c.2) ∧
    ((ns.foldl (captureStep opp) (P, 0)).2 = (capturedAlong P opp ns).card) := by
  induction ns using List.reverseRecOn with
  | nil =>
    refine ⟨hWF, fun c => ?_, ?_⟩
    · rw [if_neg (by simp [capturedAlong])]
      rfl
    · simp [capturedAlong]
  | append_singleton ns m ih =>
    obtain ⟨ihWF, ihcell, ihcnt⟩ := ih
    rw [List.foldl_append, List.foldl_cons, List.foldl_nil] at *
    by_cases hcase : getCell ((ns.foldl (captureStep opp) (P, 0)).1) m.1 m.2 = some opp
    case neg =>
      have hstep : captureStep opp (ns.foldl (captureStep opp) (P, 0)) m =
          ns.foldl (captureStep opp) (P, 0) := by
        rw [captureStep, if_neg hcase]
      rw [hstep]
      have hD' : capturedAlong P opp (ns ++ [m]) = capturedAlong P opp ns := by
        rw [capturedAlong_append]
        split_ifs with hq
        · have hm_in : m ∈ capturedAlong P opp ns := by
            by_contra hmn
            have h1 := ihcell m
            rw [if_neg hmn] at h1
            rw [h1] at hcase
            exact hcase hq.1
          rw [Finset.union_eq_left]
          have h2 := (capturedAlong_closed hWF hm_in).2.2
          exact h2
        · simp
      rw [hD']
      exact ⟨ihWF, ihcell, ihcnt⟩
    case pos =>
      have hm_notin : m ∉ capturedAlong P opp ns := by
        intro hmem
        have h1 := ihcell m
        rw [if_pos hmem] at h1
        rw [h1] at hcase
        exact Option.noConfusion hcase
      have hPm : getCell P m.1 m.2 = some opp := by
        have h1 := ihcell m
        rw [if_neg hm_notin] at h1
        rw [← h1]
        exact hcase
      have hD : ∀ d, Reach P opp m d → d ∉ capturedAlong P opp ns :=
        reach_avoid_captured hWF hPm hm_notin
      have hDcol : ∀ d ∈ capturedAlong P opp ns, getCell P d.1 d.2 = some opp :=
        fun d hd => (capturedAlong_closed hWF hd).1
      have hgr := group_erase_eq hWF ihWF ihcell hD hPm hm_notin
      have hlib := liberties_erase_eq hWF ihWF ihcell hD hDcol hPm hm_notin
      by_cases hlib0 :
        (getGroupAndLiberties ((ns.foldl (captureStep opp) (P, 0)).1) m.1 m.2).liberties = 0
      case pos =>
        have hq : qualifies P opp m := ⟨hPm, by rw [← hlib]; exact hlib0⟩
        have hstep : captureStep opp (ns.foldl (captureStep opp) (P, 0)) m =
            (getGroupAndLiberties ((ns.foldl (captureStep opp) (P, 0)).1) m.1 m.2).group.foldl
              (fun acc2 stone => (setCell acc2.1 stone.1 stone.2 none, acc2.2 + 1))
              (ns.foldl (captureStep opp) (P, 0)) := by
          rw [captureStep, if_pos hcase]
          simp only [hlib0, if_pos]
        rw [hstep]
        have hgrid : ∀ s ∈ (getGroupAndLiberties ((ns.foldl (captureStep opp) (P, 0)).1)
            m.1 m.2).group, onGrid s := by
          intro s hs
          have hsF : s ∈ groupFin P m := by
            rw [← hgr]
            exact List.mem_toFinset.2 hs
          exact getCell_some_onGrid' hWF (groupFin_trans hWF hPm hsF).1
        have hpair : (ns.foldl (captureStep opp) (P, 0)) =
            ((ns.foldl (captureStep opp) (P, 0)).1, (ns.foldl (captureStep opp) (P, 0)).2) :=
          (Prod.mk.eta).symm
        rw [hpair]
        obtain ⟨hW2, hc2, hcell2⟩ := foldl_remove_spec _ ((ns.foldl (captureStep opp) (P, 0)).1)
          ((ns.foldl (captureStep opp) (P, 0)).2) ihWF hgrid
        have hDapp : capturedAlong P opp (ns ++ [m]) =
            capturedAlong P opp ns ∪ groupFin P m := by
          rw [capturedAlong_append, if_pos hq]
        have hdisj : Disjoint (capturedAlong P opp ns) (groupFin P m) := by
          rw [Finset.disjoint_left]
          intro a haD haG
          exact hD a ((mem_groupFin hWF hPm).1 haG) haD
        refine ⟨hW2, ?_, ?_⟩
        · intro c
          rw [hcell2 c, ihcell c, hDapp]
          by_cases hcg : c ∈ (getGroupAndLiberties ((ns.foldl (captureStep opp) (P, 0)).1)
              m.1 m.2).group
          · rw [if_pos hcg, if_pos (Finset.mem_union_right _
              (by rw [← hgr]; exact List.mem_toFinset.2 hcg))]
          · rw [if_neg hcg]
            by_cases hcD : c ∈ capturedAlong P opp ns
            · rw [if_pos hcD, if_pos (Finset.mem_union_left _ hcD)]
            · rw [if_neg hcD, if_neg ?_]
              rw [Finset.mem_union]
              rintro (h | h)
              · exact hcD h
              · rw [← hgr, List.mem_toFinset] at h
                exact hcg h
        · rw [hc2, ihcnt, hDapp, Finset.card_union_of_disjoint hdisj]
          congr 1
          rw [← hgr]
          exact (List.toFinset_card_of_nodup (getGroupAndLiberties_spec ihWF hcase).1).symm
      case neg =>
        have hnq : ¬ qualifies P opp m := by
          intro hq
          rw [hlib] at hlib0
          exact hlib0 hq.2
        have hstep : captureStep opp (ns.foldl (captureStep opp) (P, 0)) m =
            ns.foldl (captureStep opp) (P, 0) := by
          rw [captureStep, if_pos hcase]
          simp only [hlib0]
          simp
        rw [hstep]
        have hD' : capturedAlong P opp (ns ++ [m]) = capturedAlong P opp ns := by
          rw [capturedAlong_append, if_neg hnq]
          simp
        rw [hD']
        exact ⟨ihWF, ihcell, ihcnt⟩

/-- Specification of the whole capture pass of tryMakeMove. -/
theorem captureNeighbors_spec {P : BoardState} {x y : Int} {opp : Player} (hWF : WF P) :
    WF ((captureNeighbors P x y opp).1) ∧
    (∀ c : Coord, getCell ((captureNeighbors P x y opp).1) c.1 c.2 =
      if c ∈ capturedSet P x y opp then none else getCell P c.1 c.2) ∧
    ((captureNeighbors P x y opp).2 = (capturedSet P x y opp).card) :=
  captureLoop_spec hWF (getNeighbors x y)

/-! ### Unfolding the tryMakeMove pipeline -/

theorem tryMakeMove_oob {b : BoardState} {x y : Int} {player : Player}
    {history : List String} (h : isOnBoard x y = false) :
    tryMakeMove b x y player history = ⟨false, none, none, some errOutOfBounds⟩ := by
  unfold tryMakeMove
  rw [h]
  rfl

theorem tryMakeMove_occupied {b : BoardState} {x y : Int} {player : Player}
    {history : List String} (h1 : isOnBoard x y = true) (h2 : getCell b x y ≠ none) :
    tryMakeMove b x y player history = ⟨false, none, none, some errOccupied⟩ := by
  unfold tryMakeMove
  rw [h1]
  simp [h2]

theorem tryMakeMove_main {b : BoardState} {x y : Int} {player : Player}
    {history : List String} (h1 : isOnBoard x y = true) (h2 : getCell b x y = none) :
    tryMakeMove b x y player history =
      (if (getGroupAndLiberties
            ((captureNeighbors (setCell b x y (some player)) x y (opponentOf player)).1)
            x y).liberties = 0 then
        ⟨false, none, none, some errSuicide⟩
      else if history.length > 1 ∧ history.getD (history.length - 2) emptyStr =
          stringifyBoard
            ((captureNeighbors (setCell b x y (some player)) x y (opponentOf player)).1) then
        ⟨false, none, none, some errKo⟩
      else
        ⟨true,
          some ((captureNeighbors (setCell b x y (some player)) x y (opponentOf player)).1),
          some ((captureNeighbors (setCell b x y (some player)) x y (opponentOf player)).2),
          none⟩) := by
  unfold tryMakeMove
  rw [copyBoard_eq, h1, h2]
  simp

/-- The empty 19×19 board. -/
def emptyBoard : BoardState := List.replicate 19 (List.replicate 19 (none : Cell))

/-- Board with a single black stone at (0, 0). -/
def oneStoneBoard : BoardState := setCell emptyBoard 0 0 (some Player.black)

/-- Board with white at (1, 0) and (0, 1): playing black at (0, 0) is suicide. -/
def suicideBoard : BoardState :=
  setCell (setCell emptyBoard 1 0 (some Player.white)) 0 1 (some Player.white)

/-- Board with white at (0, 0) and black at (0, 1): black playing (1, 0)
captures the white stone. -/
def captureBoard : BoardState :=
  setCell (setCell emptyBoard 0 0 (some Player.white)) 0 1 (some Player.black)

/-- The board that results from that capture: black at (0, 1) and (1, 0). -/
def captureResultBoard : BoardState :=
  setCell (setCell emptyBoard 0 1 (some Player.black)) 1 0 (some Player.black)

/-- A history whose entry two plies back is exactly the fingerprint of the
post-capture board above, so the capture is rejected as ko. -/
def koHistory : List String := [emptyStr, stringifyBoard captureResultBoard, emptyStr]

/-! ### C5: bounds before occupancy -/

/-- C5: tryMakeMove checks bounds before occupancy: every off-grid coordinate
is rejected with the out-of-bounds error (`"Invalid position"`) whatever the
board holds, and every in-bounds move onto a non-empty cell is rejected with
the occupied error (`"Position occupied"`); both rejections return no board and
no capture count, so the caller's board is untouched and nothing was placed or
captured. -/
theorem C5_bounds_then_occupancy (b : BoardState) (x y : Int) (player : Player)
    (history : List String) :
    (isOnBoard x y = false →
      tryMakeMove b x y player history = ⟨false, none, none, some errOutOfBounds⟩) ∧
    (isOnBoard x y = true → getCell b x y ≠ none →
      tryMakeMove b x y player history = ⟨false, none, none, some errOccupied⟩) :=
  ⟨fun h => tryMakeMove_oob h, fun h1 h2 => tryMakeMove_occupied h1 h2⟩

theorem C5_witness :
    tryMakeMove emptyBoard (-1) 0 Player.black [] = ⟨false, none, none, some errOutOfBounds⟩ ∧
    tryMakeMove oneStoneBoard 0 0 Player.white [] = ⟨false, none, none, some errOccupied⟩ :=
  ⟨(C5_bounds_then_occupancy emptyBoard (-1) 0 Player.black []).1 (by decide),
   (C5_bounds_then_occupancy oneStoneBoard 0 0 Player.white []).2 (by decide) (by decide)⟩

/-! ### C7: purity and determinism -/

/-- C7: tryMakeMove is pure and deterministic: two calls with identical board,
coordinates, player and history return identical results, and a rejected move
carries no board, so the caller's board stands unchanged.  In this embedding
the function is a mathematical function of its arguments, hence it cannot
mutate the board or history it receives. -/
theorem C7_pure_deterministic (b : BoardState) (x y : Int) (player : Player)
    (history : List String) :
    tryMakeMove b x y player history = tryMakeMove b x y player history ∧
    ((tryMakeMove b x y player history).success = false →
      (tryMakeMove b x y player history).newBoard = none) := by
  refine ⟨rfl, ?_⟩
  intro hfail
  cases hb : isOnBoard x y
  case false => rw [tryMakeMove_oob hb]
  case true =>
    by_cases h2 : getCell b x y = none
    case neg => rw [tryMakeMove_occupied hb h2]
    case pos =>
      rw [tryMakeMove_main hb h2] at hfail ⊢
      split_ifs at hfail ⊢ <;> rfl

theorem C7_witness :
    tryMakeMove oneStoneBoard 0 0 Player.white [] =
      tryMakeMove oneStoneBoard 0 0 Player.white [] ∧
    (tryMakeMove oneStoneBoard 0 0 Player.white []).newBoard = none :=
  ⟨(C7_pure_deterministic oneStoneBoard 0 0 Player.white []).1,
   (C7_pure_deterministic oneStoneBoard 0 0 Player.white []).2 (by decide)⟩

/-! ### C4: suicide rejection -/

/-- C4: for every board, in-bounds empty target, player and history: if after
applying all captures the mover's own group containing (x, y) has zero
liberties, tryMakeMove rejects with the suicide error and returns no board —
the working copy holding the tentative placement and captures is discarded, so
the caller's board is unchanged. -/
theorem C4_suicide (b : BoardState) (x y : Int) (player : Player) (history : List String)
    (h1 : isOnBoard x y = true) (h2 : getCell b x y = none)
    (h3 : (getGroupAndLiberties
      ((captureNeighbors (setCell b x y (some player)) x y (opponentOf player)).1)
      x y).liberties = 0) :
    tryMakeMove b x y player history = ⟨false, none, none, some errSuicide⟩ := by
  rw [tryMakeMove_main h1 h2, if_pos h3]

theorem C4_witness :
    tryMakeMove suicideBoard 0 0 Player.black [] = ⟨false, none, none, some errSuicide⟩ :=
  C4_suicide suicideBoard 0 0 Player.black [] (by decide) (by decide) (by decide)

/-! ### C2: the single-ply ko check -/

/-- C2: when the move is otherwise legal (in bounds, empty target, not
suicide), tryMakeMove rejects with the ko error exactly when the fingerprint
(JSON serialisation, a function of the board contents only) of the post-capture
resulting board equals the history entry two plies back
(`history[history.length - 2]`) — only that single entry is consulted — and
otherwise the move succeeds with that resulting board; in particular the same
recapture is legal once the entry two plies back no longer matches, as after an
intervening board-changing move. -/
theorem C2_ko (b : BoardState) (x y : Int) (player : Player) (history : List String)
    (h1 : isOnBoard x y = true) (h2 : getCell b x y = none)
    (h3 : (getGroupAndLiberties
      ((captureNeighbors (setCell b x y (some player)) x y (opponentOf player)).1)
      x y).liberties ≠ 0) :
    (tryMakeMove b x y player history = ⟨false, none, none, some errKo⟩ ↔
      (history.length > 1 ∧ history.getD (history.length - 2) emptyStr =
        stringifyBoard
          ((captureNeighbors (setCell b x y (some player)) x y (opponentOf player)).1))) ∧
    (¬(history.length > 1 ∧ history.getD (history.length - 2) emptyStr =
        stringifyBoard
          ((captureNeighbors (setCell b x y (some player)) x y (opponentOf player)).1)) →
      tryMakeMove b x y player history =
        ⟨true,
          some ((captureNeighbors (setCell b x y (some player)) x y (opponentOf player)).1),
          some ((captureNeighbors (setCell b x y (some player)) x y (opponentOf player)).2),
          none⟩) := by
  rw [tryMakeMove_main h1 h2, if_neg h3]
  constructor
  · split_ifs with hk
    · exact iff_of_true rfl hk
    · exact iff_of_false (by simp) hk
  · intro hk
    rw [if_neg hk]

theorem C2_witness :
    tryMakeMove captureBoard 1 0 Player.black koHistory = ⟨false, none, none, some errKo⟩ ∧
    tryMakeMove captureBoard 1 0 Player.black [stringifyBoard captureResultBoard] =
      ⟨true, some captureResultBoard, some 1, none⟩ := by
  have hb : (captureNeighbors (setCell captureBoard 1 0 (some Player.black)) 1 0
      (opponentOf Player.black)).1 = captureResultBoard := by decide
  constructor
  · refine (C2_ko captureBoard 1 0 Player.black koHistory
      (by decide) (by decide) (by decide)).1.2 ⟨by decide, ?_⟩
    rw [hb]
    rfl
  · have h := (C2_ko captureBoard 1 0 Player.black [stringifyBoard captureResultBoard]
      (by decide) (by decide) (by decide)).2 (by simp)
    rw [h]
    decide

/-! ### C9: the neighbour function -/

/-- C9: for every in-bounds coordinate on the 19×19 grid, getNeighbors returns
exactly the in-bounds orthogonally adjacent coordinates — the fixed-order list
left, right, up, down restricted to the grid — all of them in bounds: exactly 2
for a corner, 3 for a non-corner edge cell and 4 for an interior cell. -/
theorem C9_neighbors :
    ∀ p ∈ gridCells,
      getNeighbors p.1 p.2 =
        ([(p.1 - 1, p.2), (p.1 + 1, p.2), (p.1, p.2 - 1), (p.1, p.2 + 1)].filter
          fun e => isOnBoard e.1 e.2) ∧
      (∀ e ∈ getNeighbors p.1 p.2, isOnBoard e.1 e.2 = true) ∧
      (getNeighbors p.1 p.2).length =
        (if (p.1 = 0 ∨ p.1 = 18) ∧ (p.2 = 0 ∨ p.2 = 18) then 2
         else if p.1 = 0 ∨ p.1 = 18 ∨ p.2 = 0 ∨ p.2 = 18 then 3
         else 4) := by
  set_option maxRecDepth 4000 in decide

theorem C9_witness :
    (getNeighbors 0 0).length = 2 ∧ (getNeighbors 3 0).length = 3 ∧
    (getNeighbors 3 3).length = 4 := by
  refine ⟨?_, ?_, ?_⟩
  · have h := (C9_neighbors (0, 0) (by decide)).2.2
    norm_num at h
    exact h
  · have h := (C9_neighbors (3, 0) (by decide)).2.2
    norm_num at h
    exact h
  · have h := (C9_neighbors (3, 3) (by decide)).2.2
    norm_num at h
    exact h

/-! ### C8: liberties are distinct empty adjacent cells -/

/-- Orthogonal adjacency of two coordinates (spec-level, independent of the
source's neighbour function). -/
def Adjacent (p q : Coord) : Prop :=
  (p.1 = q.1 ∧ (q.2 = p.2 + 1 ∨ p.2 = q.2 + 1)) ∨
  (p.2 = q.2 ∧ (q.1 = p.1 + 1 ∨ p.1 = q.1 + 1))

instance : DecidablePred fun pq : Coord × Coord => Adjacent pq.1 pq.2 :=
  fun _ => by unfold Adjacent; infer_instance

instance (p q : Coord) : Decidable (Adjacent p q) := by unfold Adjacent; infer_instance

theorem mem_getNeighbors_iff_adj {g e : Coord} (hg : onGrid g) :
    e ∈ getNeighbors g.1 g.2 ↔ Adjacent g e ∧ onGrid e := by
  obtain ⟨gx, gy⟩ := g
  obtain ⟨ex, ey⟩ := e
  obtain ⟨h1, h2, h3, h4⟩ := hg
  simp only [BOARD_SIZE] at h1 h2 h3 h4
  rw [mem_getNeighbors]
  simp only [Adjacent, onGrid, Prod.mk.injEq, BOARD_SIZE]
  constructor
  · rintro (⟨h', he1, he2⟩ | ⟨h', he1, he2⟩ | ⟨h', he1, he2⟩ | ⟨h', he1, he2⟩) <;>
      subst he1 <;> subst he2 <;>
      refine ⟨?_, ?_, ?_, ?_, ?_⟩ <;> omega
  · rintro ⟨hadj | hadj, hg1, hg2, hg3, hg4⟩ <;> omega

/-- C8: the liberty count returned by getGroupAndLiberties is the number of
distinct empty grid cells orthogonally adjacent to at least one member of the
returned group — an empty cell shared by several stones counts once; and a
lone stone on an otherwise empty board has liberty count 2 in a corner, 3 on a
non-corner edge, 4 in the interior. -/
theorem C8_liberties (b : BoardState) (x y : Int) (color : Player)
    (hWF : WF b) (h : getCell b x y = some color) :
    ((getGroupAndLiberties b x y).liberties =
      (gridCells.filter fun e => getCell b e.1 e.2 = none ∧
        ∃ g ∈ (getGroupAndLiberties b x y).group, Adjacent g e).card) ∧
    (∀ q ∈ gridCells,
      (getGroupAndLiberties (setCell emptyBoard q.1 q.2 (some Player.black)) q.1 q.2).liberties =
        (if (q.1 = 0 ∨ q.1 = 18) ∧ (q.2 = 0 ∨ q.2 = 18) then 2
         else if q.1 = 0 ∨ q.1 = 18 ∨ q.2 = 0 ∨ q.2 = 18 then 3
         else 4)) := by
  constructor
  · rw [(getGroupAndLiberties_spec hWF h).2.2]
    congr 1
    ext e
    rw [mem_libsOf, Finset.mem_filter]
    have hmemcol : ∀ g ∈ (getGroupAndLiberties b x y).group, getCell b g.1 g.2 = some color :=
      fun g hg => reach_getCell h (((getGroupAndLiberties_spec hWF h).2.1 g).1 hg)
    constructor
    · rintro ⟨g, hg, hn, he⟩
      have hongrid : onGrid g := getCell_some_onGrid' hWF (hmemcol g hg)
      obtain ⟨hadj, hone⟩ := (mem_getNeighbors_iff_adj hongrid).1 hn
      exact ⟨mem_gridCells.2 hone, he, g, hg, hadj⟩
    · rintro ⟨hegrid, he, g, hg, hadj⟩
      have hongrid : onGrid g := getCell_some_onGrid' hWF (hmemcol g hg)
      exact ⟨g, hg, (mem_getNeighbors_iff_adj hongrid).2 ⟨hadj, mem_gridCells.1 hegrid⟩, he⟩
  · set_option maxRecDepth 8000 in decide

theorem C8_witness :
    (getGroupAndLiberties oneStoneBoard 0 0).liberties =
      (gridCells.filter fun e => getCell oneStoneBoard e.1 e.2 = none ∧
        ∃ g ∈ (getGroupAndLiberties oneStoneBoard 0 0).group, Adjacent g e).card :=
  (C8_liberties oneStoneBoard 0 0 Player.black (by decide) (by decide)).1

/-! ### Successful moves: inversion and frame condition -/

theorem opponentOf_ne (p : Player) : opponentOf p ≠ p := by
  cases p <;> decide

theorem player_eq_or_opp (p q : Player) : q = p ∨ q = opponentOf p := by
  cases p <;> cases q <;> simp [opponentOf]

/-- Inverting a successful tryMakeMove: the move was in bounds onto an empty
cell, the returned board and count are those of the capture pass on the
post-placement board, and the mover's group has a liberty. -/
theorem tryMakeMove_success_inv {b : BoardState} {x y : Int} {player : Player}
    {history : List String} {nb : BoardState} {k : Nat}
    (h : tryMakeMove b x y player history = ⟨true, some nb, some k, none⟩) :
    isOnBoard x y = true ∧ getCell b x y = none ∧
    nb = (captureNeighbors (setCell b x y (some player)) x y (opponentOf player)).1 ∧
    k = (captureNeighbors (setCell b x y (some player)) x y (opponentOf player)).2 ∧
    (getGroupAndLiberties
      ((captureNeighbors (setCell b x y (some player)) x y (opponentOf player)).1)
      x y).liberties ≠ 0 := by
  cases hb : isOnBoard x y
  case false =>
    rw [tryMakeMove_oob hb] at h
    exact absurd h (by simp)
  case true =>
    by_cases h2 : getCell b x y = none
    case neg =>
      rw [tryMakeMove_occupied hb h2] at h
      exact absurd h (by simp)
    case pos =>
      rw [tryMakeMove_main hb h2] at h
      split_ifs at h with hs hk
      · exact absurd h (by simp)
      · exact absurd h (by simp)
      · simp only [MoveResult.mk.injEq, Option.some.injEq] at h
        exact ⟨rfl, h2, h.2.1.symm, h.2.2.1.symm, hs⟩

/-- C10: a successful tryMakeMove changes exactly these cells: (x, y) now holds
the mover's stone; every cell of each captured group — the group of a
neighbour of (x, y) that holds an opponent stone and has zero liberties on the
post-placement board — is now empty; every other cell keeps the value it had
in the input board. -/
theorem C10_frame (b : BoardState) (x y : Int) (player : Player) (history : List String)
    (nb : BoardState) (k : Nat) (hWF : WF b)
    (h : tryMakeMove b x y player history = ⟨true, some nb, some k, none⟩) :
    ∀ c : Coord,
      getCell nb c.1 c.2 =
        if c = (x, y) then some player
        else if c ∈ capturedSet (setCell b x y (some player)) x y (opponentOf player) then none
        else getCell b c.1 c.2 := by
  obtain ⟨h1, h2, hnb, hk, h5⟩ := tryMakeMove_success_inv h
  have hxy : onGrid (x, y) := isOnBoard_iff.1 h1
  have hWFP : WF (setCell b x y (some player)) := WF_setCell hWF
  have hPxy : getCell (setCell b x y (some player)) x y = some player :=
    getCell_setCell_self hWF hxy
  obtain ⟨hWFnb, hcell, hcnt⟩ := @captureNeighbors_spec (setCell b x y (some player)) x y (opponentOf player) hWFP
  have hxyZ : (x, y) ∉ capturedSet (setCell b x y (some player)) x y (opponentOf player) := by
    intro hmem
    have := (capturedAlong_closed hWFP hmem).1
    rw [hPxy] at this
    exact opponentOf_ne player (Option.some.injEq _ _ ▸ this.symm ▸ rfl)
  intro c
  rw [hnb, hcell c]
  by_cases hc : c = (x, y)
  · subst hc
    rw [if_pos rfl, if_neg hxyZ]
    exact hPxy
  · rw [if_neg hc]
    by_cases hcap : c ∈ capturedSet (setCell b x y (some player)) x y (opponentOf player)
    · rw [if_pos hcap, if_pos hcap]
    · rw [if_neg hcap, if_neg hcap]
      exact getCell_setCell_ne (by rw [Prod.mk.eta]; exact hc)

theorem C10_witness :
    getCell captureResultBoard 0 0 =
      if ((0 : Int), (0 : Int)) = ((1 : Int), (0 : Int)) then some Player.black
      else if ((0 : Int), (0 : Int)) ∈ capturedSet (setCell captureBoard 1 0 (some Player.black))
        1 0 (opponentOf Player.black) then none
      else getCell captureBoard 0 0 :=
  C10_frame captureBoard 1 0 Player.black [] captureResultBoard 1 (by decide) (by decide)
    (0, 0)

/-! ### C3: all qualifying groups are captured, in any neighbour order -/

theorem capturedAlong_perm {P : BoardState} {opp : Player} {ns ns' : List Coord}
    (h : ns.Perm ns') : capturedAlong P opp ns = capturedAlong P opp ns' := by
  ext c
  rw [mem_capturedAlong, mem_capturedAlong]
  constructor
  · rintro ⟨n, hn, hq, hc⟩
    exact ⟨n, h.mem_iff.1 hn, hq, hc⟩
  · rintro ⟨n, hn, hq, hc⟩
    exact ⟨n, h.mem_iff.2 hn, hq, hc⟩

/-- C3: on a successful move, every adjacent opponent group with zero
liberties on the post-placement board is fully removed (each member cell of
each such group is empty in the returned board) — all qualifying groups, not
just the first; capturedCount is the size of the union of all those groups;
and folding the capture step over any permutation of the neighbour list yields
the same board (pointwise) and the same count. -/
theorem C3_capture_all (b : BoardState) (x y : Int) (player : Player) (history : List String)
    (nb : BoardState) (k : Nat) (hWF : WF b)
    (h : tryMakeMove b x y player history = ⟨true, some nb, some k, none⟩) :
    (∀ n ∈ getNeighbors x y,
      getCell (setCell b x y (some player)) n.1 n.2 = some (opponentOf player) →
      (getGroupAndLiberties (setCell b x y (some player)) n.1 n.2).liberties = 0 →
      ∀ c ∈ (getGroupAndLiberties (setCell b x y (some player)) n.1 n.2).group,
        getCell nb c.1 c.2 = none) ∧
    (k = (capturedSet (setCell b x y (some player)) x y (opponentOf player)).card) ∧
    (∀ ns : List Coord, ns.Perm (getNeighbors x y) →
      (∀ c : Coord,
        getCell ((ns.foldl (captureStep (opponentOf player))
          (setCell b x y (some player), 0)).1) c.1 c.2 = getCell nb c.1 c.2) ∧
      (ns.foldl (captureStep (opponentOf player)) (setCell b x y (some player), 0)).2 = k) := by
  obtain ⟨h1, h2, hnb, hk, h5⟩ := tryMakeMove_success_inv h
  have hWFP : WF (setCell b x y (some player)) := WF_setCell hWF
  obtain ⟨hWFnb, hcell, hcnt⟩ := @captureNeighbors_spec (setCell b x y (some player)) x y (opponentOf player) hWFP
  refine ⟨?_, ?_, ?_⟩
  · intro n hn hncol hn0 c hc
    have hcZ : c ∈ capturedSet (setCell b x y (some player)) x y (opponentOf player) :=
      mem_capturedAlong.2 ⟨n, hn, ⟨hncol, hn0⟩, List.mem_toFinset.2 hc⟩
    rw [hnb, hcell c, if_pos hcZ]
  · rw [hk, hcnt]
  · intro ns hperm
    obtain ⟨hWF', hcell', hcnt'⟩ := @captureLoop_spec (setCell b x y (some player)) (opponentOf player) hWFP ns
    have hD : capturedAlong (setCell b x y (some player)) (opponentOf player) ns =
        capturedSet (setCell b x y (some player)) x y (opponentOf player) :=
      capturedAlong_perm hperm
    constructor
    · intro c
      rw [hcell' c, hnb, hcell c, hD]
    · rw [hcnt', hD, hk, hcnt]

theorem C3_witness :
    ((0 : Int), (0 : Int)) ∈ getNeighbors 1 0 ∧
    (∀ c ∈ (getGroupAndLiberties (setCell captureBoard 1 0 (some Player.black)) 0 0).group,
      getCell captureResultBoard c.1 c.2 = none) ∧
    (1 : Nat) = (capturedSet (setCell captureBoard 1 0 (some Player.black)) 1 0
      (opponentOf Player.black)).card := by
  have h := C3_capture_all captureBoard 1 0 Player.black [] captureResultBoard 1
    (by decide) (by decide)
  exact ⟨by decide, h.1 (0, 0) (by decide) (by decide) (by decide), h.2.1⟩

/-! ### C1: capture before suicide -/

/-- C1 as stated is false: it quantifies over every history, but with a history
whose entry two plies back equals the fingerprint of the post-capture position,
the capturing move at the in-bounds empty cell (1, 0) — which reduces the
adjacent white group at (0, 0) to zero liberties on the post-placement board —
is rejected by the ko check instead of succeeding. -/
theorem C1_counterexample :
    isOnBoard 1 0 = true ∧ getCell captureBoard 1 0 = none ∧
    ((0 : Int), (0 : Int)) ∈ getNeighbors 1 0 ∧
    getCell (setCell captureBoard 1 0 (some Player.black)) 0 0 =
      some (opponentOf Player.black) ∧
    (getGroupAndLiberties (setCell captureBoard 1 0 (some Player.black)) 0 0).liberties = 0 ∧
    (tryMakeMove captureBoard 1 0 Player.black koHistory).success = false := by
  have hb : (captureNeighbors (setCell captureBoard 1 0 (some Player.black)) 1 0
      (opponentOf Player.black)).1 = captureResultBoard := by decide
  refine ⟨by decide, by decide, by decide, by decide, by decide, ?_⟩
  have hko : koHistory.length > 1 ∧ koHistory.getD (koHistory.length - 2) emptyStr =
      stringifyBoard ((captureNeighbors (setCell captureBoard 1 0 (some Player.black)) 1 0
        (opponentOf Player.black)).1) := by
    refine ⟨by decide, ?_⟩
    rw [hb]
    rfl
  rw [tryMakeMove_main (by decide) (by decide), if_neg (by decide), if_pos hko]

/-- C1 amended: for every well-formed board, in-bounds empty target, player
and history, if placing the stone gives some adjacent opponent group zero
liberties on the post-placement board AND the fingerprint of the post-capture
position differs from the history entry two plies back (no ko), then the move
succeeds, and capturedCount is the total size of the union of all adjacent
opponent groups at zero liberties — which is exactly the size of the captured
group whenever every zero-liberty opponent neighbour belongs to that single
group. -/
theorem C1_capture_before_suicide (b : BoardState) (x y : Int) (player : Player)
    (history : List String) (hWF : WF b)
    (h1 : isOnBoard x y = true) (h2 : getCell b x y = none)
    (hcap : ∃ n ∈ getNeighbors x y,
      getCell (setCell b x y (some player)) n.1 n.2 = some (opponentOf player) ∧
      (getGroupAndLiberties (setCell b x y (some player)) n.1 n.2).liberties = 0)
    (hko : ¬(history.length > 1 ∧ history.getD (history.length - 2) emptyStr =
      stringifyBoard
        ((captureNeighbors (setCell b x y (some player)) x y (opponentOf player)).1))) :
    tryMakeMove b x y player history =
      ⟨true,
        some ((captureNeighbors (setCell b x y (some player)) x y (opponentOf player)).1),
        some ((capturedSet (setCell b x y (some player)) x y (opponentOf player)).card),
        none⟩ ∧
    (∀ n ∈ getNeighbors x y,
      getCell (setCell b x y (some player)) n.1 n.2 = some (opponentOf player) →
      (getGroupAndLiberties (setCell b x y (some player)) n.1 n.2).liberties = 0 →
      (∀ m ∈ getNeighbors x y,
        getCell (setCell b x y (some player)) m.1 m.2 = some (opponentOf player) →
        (getGroupAndLiberties (setCell b x y (some player)) m.1 m.2).liberties = 0 →
        m ∈ (getGroupAndLiberties (setCell b x y (some player)) n.1 n.2).group) →
      (capturedSet (setCell b x y (some player)) x y (opponentOf player)).card =
        (getGroupAndLiberties (setCell b x y (some player)) n.1 n.2).group.length) := by
  have hxy : onGrid (x, y) := isOnBoard_iff.1 h1
  have hWFP : WF (setCell b x y (some player)) := WF_setCell hWF
  have hPxy : getCell (setCell b x y (some player)) x y = some player :=
    getCell_setCell_self hWF hxy
  obtain ⟨hWFnb, hcell, hcnt⟩ :=
    @captureNeighbors_spec (setCell b x y (some player)) x y (opponentOf player) hWFP
  have hxyZ : (x, y) ∉ capturedSet (setCell b x y (some player)) x y (opponentOf player) := by
    intro hmem
    have := (capturedAlong_closed hWFP hmem).1
    rw [hPxy] at this
    exact opponentOf_ne player (Option.some.injEq _ _ ▸ this.symm ▸ rfl)
  have hnbxy : getCell
      ((captureNeighbors (setCell b x y (some player)) x y (opponentOf player)).1) x y =
      some player := by
    have := hcell (x, y)
    rw [if_neg hxyZ] at this
    exact this.trans hPxy
  obtain ⟨n, hn, hncol, hn0⟩ := hcap
  have hnZ : n ∈ capturedSet (setCell b x y (some player)) x y (opponentOf player) :=
    mem_capturedAlong.2 ⟨n, hn, ⟨hncol, hn0⟩,
      (mem_groupFin hWFP hncol).2 Relation.ReflTransGen.refl⟩
  have hnbn : getCell
      ((captureNeighbors (setCell b x y (some player)) x y (opponentOf player)).1) n.1 n.2 =
      none := by
    rw [hcell n, if_pos hnZ]
  have hself : (getGroupAndLiberties
      ((captureNeighbors (setCell b x y (some player)) x y (opponentOf player)).1)
      x y).liberties ≠ 0 := by
    rw [(getGroupAndLiberties_spec hWFnb hnbxy).2.2]
    have hseed : (x, y) ∈ (getGroupAndLiberties
        ((captureNeighbors (setCell b x y (some player)) x y (opponentOf player)).1)
        x y).group :=
      ((getGroupAndLiberties_spec hWFnb hnbxy).2.1 (x, y)).2 Relation.ReflTransGen.refl
    have hmem : n ∈ libsOf
        ((captureNeighbors (setCell b x y (some player)) x y (opponentOf player)).1)
        (getGroupAndLiberties
          ((captureNeighbors (setCell b x y (some player)) x y (opponentOf player)).1)
          x y).group :=
      mem_libsOf.2 ⟨(x, y), hseed, hn, hnbn⟩
    exact Finset.card_ne_zero_of_mem hmem
  constructor
  · rw [tryMakeMove_main h1 h2, if_neg hself, if_neg hko, hcnt]
  · intro m hm hmcol hm0 huniq
    have hZeq : capturedSet (setCell b x y (some player)) x y (opponentOf player) =
        groupFin (setCell b x y (some player)) m := by
      apply Finset.Subset.antisymm
      · intro c hc
        obtain ⟨q, hq_mem, hq, hcq⟩ := mem_capturedAlong.1 hc
        have hq_in : q ∈ (getGroupAndLiberties (setCell b x y (some player)) m.1 m.2).group :=
          huniq q hq_mem hq.1 hq.2
        have hq_inF : q ∈ groupFin (setCell b x y (some player)) m :=
          List.mem_toFinset.2 hq_in
        have := (groupFin_trans hWFP hmcol hq_inF).2.1
        rw [← this]
        exact (groupFin_trans hWFP hq.1 hcq).2.1 ▸ hcq
      · intro c hc
        exact mem_capturedAlong.2 ⟨m, hm, ⟨hmcol, hm0⟩, hc⟩
    rw [hZeq, groupFin,
      List.toFinset_card_of_nodup (getGroupAndLiberties_spec hWFP hmcol).1]

theorem C1_witness :
    tryMakeMove captureBoard 1 0 Player.black [] =
      ⟨true, some captureResultBoard, some 1, none⟩ ∧
    (capturedSet (setCell captureBoard 1 0 (some Player.black)) 1 0
      (opponentOf Player.black)).card =
      (getGroupAndLiberties (setCell captureBoard 1 0 (some Player.black)) 0 0).group.length := by
  have h := C1_capture_before_suicide captureBoard 1 0 Player.black [] (by decide)
    (by decide) (by decide) ⟨(0, 0), by decide, by decide, by decide⟩ (by simp)
  constructor
  · rw [h.1]
    decide
  · exact h.2 (0, 0) (by decide) (by decide) (by decide)
      (by intro m hm hc h0; fin_cases hm <;> revert hc h0 <;> decide)

/-! ### C6: no zero-liberty group survives on a returned board -/

/-- Every occupied cell of the board belongs to a group with at least one
liberty. -/
def NoDeadGroup (b : BoardState) : Prop :=
  ∀ c ∈ gridCells, getCell b c.1 c.2 ≠ none →
    (getGroupAndLiberties b c.1 c.2).liberties ≠ 0

instance : DecidablePred NoDeadGroup := fun _ => by unfold NoDeadGroup; infer_instance

/-- Core of C6, stated against the pointwise characterisations of the
post-placement board P and the post-capture board nb. -/
theorem noDead_preserved_general {b P nb : BoardState} {x y : Int} {player : Player}
    {Z : Finset Coord}
    (hWF : WF b) (hWFP : WF P) (hWFnb : WF nb)
    (hxy : onGrid (x, y)) (hbxy : getCell b x y = none)
    (hPdef : ∀ c : Coord,
      getCell P c.1 c.2 = if c = (x, y) then some player else getCell b c.1 c.2)
    (hZdef : Z = capturedSet P x y (opponentOf player))
    (hcells : ∀ c : Coord, getCell nb c.1 c.2 = if c ∈ Z then none else getCell P c.1 c.2)
    (hnd : NoDeadGroup b)
    (hself : (getGroupAndLiberties nb x y).liberties ≠ 0) :
    NoDeadGroup nb := by
  have hopp_ne : opponentOf player ≠ player := opponentOf_ne player
  have hPxy : getCell P x y = some player := by
    have h0 := hPdef (x, y)
    rw [if_pos rfl] at h0
    exact h0
  have hxyZ : (x, y) ∉ Z := by
    rw [hZdef]
    intro hmem
    have hcol : getCell P x y = some (opponentOf player) :=
      (capturedAlong_closed hWFP hmem).1
    exact hopp_ne (Option.some.inj (hcol.symm.trans hPxy))
  have hnbxy : getCell nb x y = some player := by
    have h0 := hcells (x, y)
    rw [if_neg hxyZ] at h0
    exact h0.trans hPxy
  have hZcol : ∀ d ∈ Z, getCell P d.1 d.2 = some (opponentOf player) := by
    intro d hd
    rw [hZdef] at hd
    exact (capturedAlong_closed hWFP hd).1
  have hZb : ∀ d ∈ Z, getCell b d.1 d.2 = some (opponentOf player) := by
    intro d hd
    have hPd := hZcol d hd
    have hdxy : d ≠ (x, y) := by
      intro hdd
      rw [hdd] at hPd
      exact hopp_ne (Option.some.inj (hPxy.symm.trans hPd)).symm
    have h0 := hPdef d
    rw [if_neg hdxy] at h0
    exact h0.symm.trans hPd
  intro c hcgrid hcne
  rcases hcol : getCell nb c.1 c.2 with _ | col
  · exact absurd hcol hcne
  rcases player_eq_or_opp player col with hcp | hcp
  · -- the cell holds the mover's colour
    rw [hcp] at hcol
    by_cases hreach : Reach nb player (x, y) c
    · have hcF : c ∈ groupFin nb (x, y) := (mem_groupFin hWFnb hnbxy).2 hreach
      have hlibeq := (groupFin_trans hWFnb hnbxy hcF).2.2
      rw [hlibeq]
      exact hself
    · have hcxy : c ≠ (x, y) := by
        intro hcc
        exact hreach (hcc ▸ Relation.ReflTransGen.refl)
      have hcZ : c ∉ Z := by
        intro hem
        have h0 := hcells c
        rw [if_pos hem] at h0
        rw [h0] at hcol
        exact Option.noConfusion hcol
      have hcP : getCell P c.1 c.2 = some player := by
        have h0 := hcells c
        rw [if_neg hcZ] at h0
        exact h0.symm.trans hcol
      have hcb : getCell b c.1 c.2 = some player := by
        have h0 := hPdef c
        rw [if_neg hcxy] at h0
        exact h0.symm.trans hcP
      have hmono_b_nb : ∀ d : Coord,
          getCell b d.1 d.2 = some player → getCell nb d.1 d.2 = some player := by
        intro d hd
        have hdxy : d ≠ (x, y) := by
          intro hdd
          rw [hdd] at hd
          exact Option.noConfusion (hbxy.symm.trans hd)
        have hdZ : d ∉ Z := by
          intro hdmem
          exact hopp_ne (Option.some.inj ((hd.symm.trans (hZb d hdmem)).symm))
        have e1 := hPdef d
        rw [if_neg hdxy] at e1
        have e2 := hcells d
        rw [if_neg hdZ] at e2
        rw [e2, e1]
        exact hd
      have havoid : ∀ d : Coord, Reach nb player c d → d ∉ ({(x, y)} : Set Coord) := by
        intro d hd hdm
        rw [Set.mem_singleton_iff] at hdm
        subst hdm
        exact hreach (reach_symm hWFnb hcol hd)
      have hreach_iff : ∀ d, Reach nb player c d ↔ Reach b player c d := by
        intro d
        constructor
        · intro hd
          refine reach_avoid (Z := ({(x, y)} : Set Coord)) ?_ havoid hd
          intro e he hecol
          rw [Set.mem_singleton_iff] at he
          have heZ : e ∉ Z := by
            intro hemem
            have h0 := hcells e
            rw [if_pos hemem] at h0
            rw [h0] at hecol
            exact Option.noConfusion hecol
          have e2 := hcells e
          rw [if_neg heZ] at e2
          have e1 := hPdef e
          rw [if_neg he] at e1
          rw [← e1, ← e2]
          exact hecol
        · exact fun hd => reach_mono hmono_b_nb hd
      have hspec_nb := getGroupAndLiberties_spec hWFnb hcol
      have hspec_b := getGroupAndLiberties_spec hWF hcb
      rw [hspec_nb.2.2]
      have hb_ne := hnd c hcgrid (by rw [hcb]; simp)
      rw [hspec_b.2.2] at hb_ne
      obtain ⟨e, he⟩ := Finset.card_ne_zero.1 hb_ne
      obtain ⟨g, hg, hgn, hge⟩ := mem_libsOf.1 he
      have hg_reach_b : Reach b player c g := (hspec_b.2.1 g).1 hg
      have hg_reach_nb : Reach nb player c g := (hreach_iff g).2 hg_reach_b
      have hg_nb_mem : g ∈ (getGroupAndLiberties nb c.1 c.2).group :=
        (hspec_nb.2.1 g).2 hg_reach_nb
      have hexy : e ≠ (x, y) := by
        intro hexy
        subst hexy
        have hg_col_nb : getCell nb g.1 g.2 = some player := reach_getCell hcol hg_reach_nb
        have hg_grid : onGrid g := getCell_some_onGrid' hWFnb hg_col_nb
        have hsymm := getNeighbors_symm hg_grid hxy hgn
        have hstep : Reach nb player (x, y) g :=
          Relation.ReflTransGen.single ⟨hsymm, hg_col_nb⟩
        exact hreach (hstep.trans (reach_symm hWFnb hcol hg_reach_nb))
      have henb : getCell nb e.1 e.2 = none := by
        by_cases heZ : e ∈ Z
        · have h0 := hcells e
          rw [if_pos heZ] at h0
          exact h0
        · have e2 := hcells e
          rw [if_neg heZ] at e2
          have e1 := hPdef e
          rw [if_neg hexy] at e1
          rw [e2, e1]
          exact hge
      exact Finset.card_ne_zero_of_mem (mem_libsOf.2 ⟨g, hg_nb_mem, hgn, henb⟩)
  · -- the cell holds the opponent's colour
    rw [hcp] at hcol
    have hcZ : c ∉ Z := by
      intro hem
      have h0 := hcells c
      rw [if_pos hem] at h0
      rw [h0] at hcol
      exact Option.noConfusion hcol
    have hcP : getCell P c.1 c.2 = some (opponentOf player) := by
      have h0 := hcells c
      rw [if_neg hcZ] at h0
      exact h0.symm.trans hcol
    have hcxy : c ≠ (x, y) := by
      intro hcc
      rw [hcc] at hcP
      exact hopp_ne (Option.some.inj (hPxy.symm.trans hcP)).symm
    have hcb : getCell b c.1 c.2 = some (opponentOf player) := by
      have h0 := hPdef c
      rw [if_neg hcxy] at h0
      exact h0.symm.trans hcP
    have hcZ' : c ∉ capturedSet P x y (opponentOf player) := by
      rw [← hZdef]
      exact hcZ
    have hD : ∀ d, Reach P (opponentOf player) c d → d ∉ Z := by
      intro d hd
      rw [hZdef]
      exact reach_avoid_captured hWFP hcP hcZ' d hd
    have hlib_eq := liberties_erase_eq hWFP hWFnb hcells hD hZcol hcP hcZ
    rw [hlib_eq]
    intro hP0
    have hb_ne := hnd c hcgrid (by rw [hcb]; simp)
    have hspec_P := getGroupAndLiberties_spec hWFP hcP
    have hspec_b := getGroupAndLiberties_spec hWF hcb
    rw [hspec_b.2.2] at hb_ne
    obtain ⟨e, he⟩ := Finset.card_ne_zero.1 hb_ne
    obtain ⟨g, hg, hgn, hge⟩ := mem_libsOf.1 he
    have hreach_bP : ∀ d, Reach b (opponentOf player) c d ↔
        Reach P (opponentOf player) c d := by
      intro d
      constructor
      · apply reach_mono
        intro u hu
        have huxy : u ≠ (x, y) := by
          intro huu
          rw [huu] at hu
          exact Option.noConfusion (hbxy.symm.trans hu)
        have h0 := hPdef u
        rw [if_neg huxy] at h0
        rw [h0]
        exact hu
      · apply reach_mono
        intro u hu
        have huxy : u ≠ (x, y) := by
          intro huu
          rw [huu] at hu
          exact hopp_ne (Option.some.inj (hPxy.symm.trans hu)).symm
        have h0 := hPdef u
        rw [if_neg huxy] at h0
        rw [← h0]
        exact hu
    have hg_reach_b : Reach b (opponentOf player) c g := (hspec_b.2.1 g).1 hg
    have hg_reach_P : Reach P (opponentOf player) c g := (hreach_bP g).1 hg_reach_b
    have hg_P_mem : g ∈ (getGroupAndLiberties P c.1 c.2).group :=
      (hspec_P.2.1 g).2 hg_reach_P
    have hempty : libsOf P (getGroupAndLiberties P c.1 c.2).group = ∅ := by
      rw [hspec_P.2.2] at hP0
      exact Finset.card_eq_zero.1 hP0
    have heP : getCell P e.1 e.2 ≠ none := by
      intro hPe
      have hmem : e ∈ libsOf P (getGroupAndLiberties P c.1 c.2).group :=
        mem_libsOf.2 ⟨g, hg_P_mem, hgn, hPe⟩
      rw [hempty] at hmem
      exact absurd hmem (Finset.not_mem_empty e)
    have hexy : e = (x, y) := by
      by_contra hne
      have h0 := hPdef e
      rw [if_neg hne] at h0
      exact heP (h0.trans hge)
    subst hexy
    have hg_col_P : getCell P g.1 g.2 = some (opponentOf player) :=
      reach_getCell hcP hg_reach_P
    have hg_grid : onGrid g := getCell_some_onGrid' hWFP hg_col_P
    have hsymm := getNeighbors_symm hg_grid hxy hgn
    have hg_lib : (getGroupAndLiberties P g.1 g.2).liberties = 0 := by
      have h0 := (groupFin_trans hWFP hcP ((mem_groupFin hWFP hcP).2 hg_reach_P)).2.2
      rw [h0]
      exact hP0
    have hcontra : c ∈ capturedSet P x y (opponentOf player) := by
      refine mem_capturedAlong.2 ⟨g, hsymm, ⟨hg_col_P, hg_lib⟩, ?_⟩
      exact (mem_groupFin hWFP hg_col_P).2 (reach_symm hWFP hcP hg_reach_P)
    rw [← hZdef] at hcontra
    exact hcZ hcontra

/-- C6: if the input board contains no same-coloured 4-connected group with
zero liberties, then every board returned by a successful tryMakeMove contains
no group with zero liberties either: the mover's group passed the (checked)
suicide test, every adjacent opponent group brought to zero liberties was
removed, and no other group's liberty count can have dropped to zero. -/
theorem C6_no_dead_group (b : BoardState) (x y : Int) (player : Player)
    (history : List String) (nb : BoardState) (k : Nat) (hWF : WF b)
    (hnd : NoDeadGroup b)
    (h : tryMakeMove b x y player history = ⟨true, some nb, some k, none⟩) :
    NoDeadGroup nb := by
  obtain ⟨h1, h2, hnb, hk, h5⟩ := tryMakeMove_success_inv h
  have hxy : onGrid (x, y) := isOnBoard_iff.1 h1
  have hWFP : WF (setCell b x y (some player)) := WF_setCell hWF
  obtain ⟨hWFnb, hcell, hcnt⟩ :=
    @captureNeighbors_spec (setCell b x y (some player)) x y (opponentOf player) hWFP
  have hPdef : ∀ c : Coord, getCell (setCell b x y (some player)) c.1 c.2 =
      if c = (x, y) then some player else getCell b c.1 c.2 := by
    intro c
    by_cases hc : c = (x, y)
    · subst hc
      rw [if_pos rfl]
      exact getCell_setCell_self hWF hxy
    · rw [if_neg hc]
      exact getCell_setCell_ne (by rw [Prod.mk.eta]; exact hc)
  subst hnb
  exact noDead_preserved_general hWF hWFP hWFnb hxy h2 hPdef rfl hcell hnd h5

theorem C6_witness : NoDeadGroup captureResultBoard :=
  C6_no_dead_group captureBoard 1 0 Player.black [] captureResultBoard 1
    (by decide) (by set_option maxRecDepth 8000 in decide) (by decide)

end ZenGo
